import Mathlib

/-!
Verification of the TensrNEXT metadata/view core.

Shallow embedding of the C++ sources:
* `NextUtils.hpp` — stride/size arithmetic, index mapping, `NextReverse`;
* `TensorMetadata.hpp` — the `TensorMetadata` value class and its two
  constructors;
* the shape-utils header — `NextSlice`, `NextReshape`, `NextPermute`,
  `NextTranspose`, `NextSqueeze`.

`size_t` values are modelled as `Nat`; the one place where unsigned
wrap-around matters (`vec.size() - 1` in `NextReverse`) is modelled with an
explicit `% 2 ^ 64`.  Code paths that are undefined behaviour in C++
(out-of-bounds `std::vector` indexing) or that throw are modelled as `none`
of an `Option` result; successful returns are `some`.
-/

/-- `2 ^ 64`, the modulus of `size_t` arithmetic on the target platform. -/
def SIZE_T_MOD : Nat := 2 ^ 64

/-! ## Stride/size arithmetic (`NextUtils.hpp`)

The runtime (`std::vector`) versions: `ComputeStrides` initialises a vector
of `N` ones and runs `for (i = N-2; i >= 0; --i) strides[i] = strides[i+1] *
shape[i+1]`.  The loop is modelled by `stridesIter shape k s`, which performs
`k` iterations, the first of them writing index `k - 1` and the last writing
index `0` — exactly the source's descending loop when started at
`k = N - 1`. -/

/-- One descending pass of the stride loop: `stridesIter shape (k+1) s`
executes `s[k] = s[k+1] * shape[k+1]` and recurses, so a call with
`k = N - 1` performs the writes at indices `N-2, N-3, ..., 0`. -/
def stridesIter (shape : List Nat) : Nat → List Nat → List Nat
  | 0, s => s
  | k + 1, s => stridesIter shape k (s.set k (s.getD (k + 1) 0 * shape.getD (k + 1) 0))

/-- `NextUtils::ComputeStrides`, runtime (dynamic-rank) version:
vector of `N` ones, then the descending update loop. -/
def ComputeStrides (shape : List Nat) : List Nat :=
  stridesIter shape (shape.length - 1) (List.replicate shape.length 1)

/-- `NextUtils::ComputeStrides`, `constexpr` (static-rank) version: the
array is zero-initialised, then (under `if constexpr (N > 0)`) the last
stride is set to `1` and the same descending loop runs. -/
def ComputeStridesStatic (shape : List Nat) : List Nat :=
  if shape.length = 0 then []
  else
    stridesIter shape (shape.length - 1)
      ((List.replicate shape.length 0).set (shape.length - 1) 1)

/-- `NextUtils::ComputeSize`, runtime version: `size = 1;
for (dim : shape) size *= dim;`. -/
def ComputeSize (shape : List Nat) : Nat :=
  shape.foldl (fun a d => a * d) 1

/-- `NextUtils::ComputeSize`, `constexpr` version: identical accumulation,
guarded by `if constexpr (N > 0)` (the guard is immaterial since the loop
over an empty shape leaves `size = 1`). -/
def ComputeSizeStatic (shape : List Nat) : Nat :=
  if shape.length = 0 then 1 else shape.foldl (fun a d => a * d) 1

/-! ## Index mapping (`NextUtils.hpp`)

`FlattenIndex` requires `len(indices) == len(strides)` (the C++ loop runs
over `strides.size()` and reads `indices[i]`, undefined behaviour when
`indices` is shorter); the embedding recurses over the two lists in
lockstep, which agrees with the source on that domain. -/

/-- `NextUtils::FlattenIndex`: `Σ indices[i] * strides[i]`. -/
def FlattenIndex : List Nat → List Nat → Nat
  | st :: sts, i :: is => i * st + FlattenIndex sts is
  | _, _ => 0

/-- `NextUtils::UnflattenIndex`: for each dimension in order,
`indices[i] = flat / strides[i]; flat %= strides[i]`. -/
def UnflattenIndex : List Nat → Nat → List Nat
  | [], _ => []
  | st :: sts, flat => flat / st :: UnflattenIndex sts (flat % st)

/-! ## `NextUtils::NextReverse`

```cpp
size_t left = 0;
size_t right = vec.size() - 1;
while (left < right) { std::swap(vec[left], vec[right]); ++left; --right; }
```

`right` underflows to `2^64 - 1` when `vec` is empty, and the first loop
iteration then indexes out of bounds.  The loop is modelled with an explicit
fuel argument (the initial `right`, which bounds the iteration count since
`right - left` shrinks by two per iteration); an out-of-bounds access yields
`none`. -/

/-- The body of the `NextReverse` loop with fuel: swap `vec[left]` and
`vec[right]` (out of bounds ⇒ `none`), advance the two cursors, repeat while
`left < right`. -/
def reverseLoop : Nat → List Nat → Nat → Nat → Option (List Nat)
  | 0, vec, left, right => if left < right then none else some vec
  | fuel + 1, vec, left, right =>
    if left < right then
      match vec.get? left, vec.get? right with
      | some a, some b => reverseLoop fuel ((vec.set left b).set right a) (left + 1) (right - 1)
      | _, _ => none
    else some vec

/-- `NextUtils::NextReverse`: `right = vec.size() - 1` in `size_t`
arithmetic (underflowing to `2^64 - 1` on an empty vector), then the swap
loop. -/
def NextReverse (vec : List Nat) : Option (List Nat) :=
  reverseLoop ((vec.length + (SIZE_T_MOD - 1)) % SIZE_T_MOD) vec 0
    ((vec.length + (SIZE_T_MOD - 1)) % SIZE_T_MOD)

/-! ## `NextMetadata::TensorMetadata` -/

/-- The `TensorMetadata` value class: shape, strides, offset, total size,
rank and the contiguity flag. -/
structure TensorMetadata where
  shape : List Nat
  strides : List Nat
  offset : Nat
  totalSize : Nat
  rank : Nat
  isContiguous : Bool
  deriving DecidableEq, Repr

/-- The shape-only constructor `TensorMetadata(shape, offset = 0)`:
strides are computed canonically, `totalSize = ComputeSize(shape)`,
`rank = shape.size()`, and `isContiguous_` is set to `true`. -/
def TensorMetadata.fromShape (shape : List Nat) (offset : Nat) : TensorMetadata :=
  ⟨shape, ComputeStrides shape, offset, ComputeSize shape, shape.length, true⟩

/-- The shape+strides constructor `TensorMetadata(shape, stride, offset = 0)`:
strides are taken verbatim, and `isContiguous_` is again set to `true`
unconditionally. -/
def TensorMetadata.fromShapeStrides (shape strides : List Nat) (offset : Nat) : TensorMetadata :=
  ⟨shape, strides, offset, ComputeSize shape, shape.length, true⟩

/-- `TensorMetadata::SetContiguous`, the only mutator of the class. -/
def TensorMetadata.SetContiguous (m : TensorMetadata) (b : Bool) : TensorMetadata :=
  { m with isContiguous := b }

/-! ## View transformations (`NextShapeUtils`) -/

/-- The per-dimension loop of `NextSlice`: arguments are the remaining
suffixes of shape, strides, start indices and end indices.  A dimension with
`start >= end || start >= shape || end > shape` throws (`none`); otherwise
`end - start` is pushed onto the new shape and the original stride onto the
new strides. -/
def sliceDims : List Nat → List Nat → List Nat → List Nat → Option (List Nat × List Nat)
  | [], [], [], [] => some ([], [])
  | sh :: shs, st :: sts, s :: ss, e :: es =>
    if s ≥ e ∨ s ≥ sh ∨ e > sh then none
    else
      match sliceDims shs sts ss es with
      | some (nsh, nst) => some ((e - s) :: nsh, st :: nst)
      | none => none
  | _, _, _, _ => none

/-- `NextShapeUtils::NextSlice`: validates lengths, runs the per-dimension
loop, then returns `TensorMetadata(newShape, Metadata.GetOffset())` — the
shape-only constructor; the `newStrides` vector built by the loop is
discarded, and the offset is passed through unchanged. -/
def NextSlice (m : TensorMetadata) (startIndices endIndices : List Nat) :
    Option TensorMetadata :=
  if startIndices.length ≠ m.shape.length ∨ endIndices.length ≠ m.shape.length then none
  else
    match sliceDims m.shape m.strides startIndices endIndices with
    | some (newShape, _) => some (TensorMetadata.fromShape newShape m.offset)
    | none => none

/-- `NextShapeUtils::NextReshape`: computes `newSize` as the product of the
requested shape, throws when it differs from `GetTotalSize()`, and otherwise
returns `TensorMetadata(newShape, Metadata.GetOffset())` (shape-only
constructor; the separately computed `newStrides` is unused but equals what
that constructor recomputes). -/
def NextReshape (m : TensorMetadata) (newShape : List Nat) : Option TensorMetadata :=
  if m.totalSize ≠ newShape.foldl (fun a d => a * d) 1 then none
  else some (TensorMetadata.fromShape newShape m.offset)

/-- The assignment loop of `NextPermute`'s custom-permutation branch:
`newShape[i] = shape[p[i]]; newStrides[i] = strides[p[i]]`, with an
out-of-range `p[i]` being undefined behaviour (`none`).  Duplicates are not
checked (the source comments "You can add more checks here"). -/
def permuteDims (shape strides : List Nat) : List Nat → Option (List Nat × List Nat)
  | [] => some ([], [])
  | p :: ps =>
    match shape.get? p, strides.get? p, permuteDims shape strides ps with
    | some a, some b, some (nsh, nst) => some (a :: nsh, b :: nst)
    | _, _, _ => none

/-- `NextShapeUtils::NextPermute`: an empty permutation reverses shape and
strides via `NextReverse` (the full transpose); a non-empty one is checked
for length only, then applied elementwise, the result built with the
shape+strides constructor and the original offset. -/
def NextPermute (m : TensorMetadata) (permutation : List Nat) : Option TensorMetadata :=
  if permutation.isEmpty then
    match NextReverse m.shape, NextReverse m.strides with
    | some newShape, some newStrides =>
      some (TensorMetadata.fromShapeStrides newShape newStrides m.offset)
    | _, _ => none
  else if permutation.length ≠ m.shape.length then none
  else
    match permuteDims m.shape m.strides permutation with
    | some (newShape, newStrides) =>
      some (TensorMetadata.fromShapeStrides newShape newStrides m.offset)
    | none => none

/-- `NextShapeUtils::NextTranspose`: `NextPermute` with the default (empty)
permutation. -/
def NextTranspose (m : TensorMetadata) : Option TensorMetadata :=
  NextPermute m []

/-- The inner loop of `NextSqueeze`'s explicit-axes branch: for a single
`axis`, push every `shape[i]` with `i != axis`, `i` ranging over the index
list (source: `for (i = 0; i < rank; i++)`). -/
def squeezePass (shape : List Nat) (axis : Nat) : List Nat → Option (List Nat)
  | [] => some []
  | i :: is =>
    if i = axis then squeezePass shape axis is
    else
      match shape.get? i, squeezePass shape axis is with
      | some d, some r => some (d :: r)
      | _, _ => none

/-- The outer loop of `NextSqueeze`'s explicit-axes branch: for each axis in
order, validate `axis < rank` and `shape[axis] == 1`, then append the whole
pass for that axis onto the accumulated `newShape` (the source re-runs the
full inner loop per axis, appending to the same vector). -/
def squeezeLoop (m : TensorMetadata) : List Nat → List Nat → Option (List Nat)
  | [], acc => some acc
  | a :: as, acc =>
    if a ≥ m.rank then none
    else
      match m.shape.get? a with
      | none => none
      | some d =>
        if d ≠ 1 then none
        else
          match squeezePass m.shape a (List.range m.rank) with
          | some pass => squeezeLoop m as (acc ++ pass)
          | none => none

/-- `NextShapeUtils::NextSqueeze`: with explicit axes, the (misnested)
validate-and-append loop above followed by the shape-only constructor; with
no axes, every size-1 dimension is dropped from the shape and the shape-only
constructor is called.  In both branches the locally declared `newStrides`
is never filled, so strides are recomputed canonically. -/
def NextSqueeze (m : TensorMetadata) (axes : List Nat) : Option TensorMetadata :=
  if axes ≠ [] then
    match squeezeLoop m axes [] with
    | some newShape => some (TensorMetadata.fromShape newShape m.offset)
    | none => none
  else
    some (TensorMetadata.fromShape (m.shape.filter (fun d => d ≠ 1)) m.offset)

/-- The inverse of a permutation list: `invPerm p` maps each position
`i < p.length` to the (first) index `j` with `p[j] = i`.  For a genuine
permutation of `0..p.length-1` this is its two-sided inverse; it is the
`inverse(p)` the spec's round-trip property quantifies over. -/
def invPerm (p : List Nat) : List Nat :=
  (List.range p.length).map (fun i => p.indexOf i)

/-! ## Canonical strides: characterising the stride loop

`canonStrides` is the standard suffix-product description of row-major
strides; the lemmas below prove that both the runtime and the `constexpr`
stride loops compute exactly it. -/

/-- Suffix-product form of canonical row-major strides:
`strides[i] = shape[i+1] * shape[i+2] * ... * shape[rank-1]`. -/
def canonStrides : List Nat → List Nat
  | [] => []
  | _ :: ds => ComputeSize ds :: canonStrides ds

lemma foldl_mul_eq_mul_prod (l : List Nat) : ∀ a : Nat, l.foldl (fun x d => x * d) a = a * l.prod := by
  induction l with
  | nil => intro a; simp
  | cons d ds ih => intro a; simp only [List.foldl_cons, List.prod_cons, ih]; ring

lemma ComputeSize_eq_prod (shape : List Nat) : ComputeSize shape = shape.prod := by
  simpa using foldl_mul_eq_mul_prod shape 1

lemma ComputeSize_nil : ComputeSize [] = 1 := rfl

lemma ComputeSize_cons (d : Nat) (ds : List Nat) :
    ComputeSize (d :: ds) = d * ComputeSize ds := by
  simp [ComputeSize_eq_prod]

lemma canonStrides_length : ∀ shape : List Nat, (canonStrides shape).length = shape.length := by
  intro shape
  induction shape with
  | nil => rfl
  | cons d ds ih => simp [canonStrides, ih]

lemma canonStrides_getElem :
    ∀ (shape : List Nat) (j : Nat) (h : j < (canonStrides shape).length),
      (canonStrides shape)[j] = ComputeSize (shape.drop (j + 1)) := by
  intro shape
  induction shape with
  | nil => intro j h; simp [canonStrides] at h
  | cons d ds ih =>
    intro j h
    cases j with
    | zero => simp [canonStrides]
    | succ j =>
      have h' : j < (canonStrides ds).length := by
        simpa [canonStrides] using h
      simpa [canonStrides] using ih j h'

lemma stridesIter_length (shape : List Nat) :
    ∀ (k : Nat) (s : List Nat), (stridesIter shape k s).length = s.length := by
  intro k
  induction k with
  | zero => intro s; rfl
  | succ k ih => intro s; rw [stridesIter, ih, List.length_set]

lemma stridesIter_eq_canon (shape : List Nat) :
    ∀ (k : Nat), k < shape.length →
      ∀ (s : List Nat), s.length = shape.length →
      (∀ (j : Nat) (hj : j < s.length), k ≤ j → s[j] = ComputeSize (shape.drop (j + 1))) →
      stridesIter shape k s = canonStrides shape := by
  intro k
  induction k with
  | zero =>
    intro _ s hlen hinv
    show s = canonStrides shape
    apply List.ext_getElem
    · rw [hlen, canonStrides_length]
    · intro n h1 h2
      rw [hinv n h1 (Nat.zero_le n), canonStrides_getElem]
  | succ k ih =>
    intro hk s hlen hinv
    have hk' : k < shape.length := Nat.lt_of_succ_lt hk
    have hk1 : k + 1 < s.length := by rw [hlen]; exact hk
    have hkk : k < s.length := Nat.lt_of_succ_lt hk1
    rw [stridesIter]
    apply ih hk'
    · rw [List.length_set, hlen]
    · intro j hj hkj
      rcases Nat.lt_or_ge k j with hlt | hge
      · have hne : k ≠ j := Nat.ne_of_lt hlt
        have hj' : j < s.length := by simpa [List.length_set] using hj
        rw [List.getElem_set_ne hne hj]
        exact hinv j hj' hlt
      · have hje : j = k := Nat.le_antisymm hge hkj
        subst hje
        have hset : j < (s.set j (s.getD (j + 1) 0 * shape.getD (j + 1) 0)).length := hj
        rw [List.getElem_set_self hset]
        have hget : s.getD (j + 1) 0 = s[j + 1] := List.getD_eq_getElem s 0 hk1
        have hshape : shape.getD (j + 1) 0 = shape[j + 1] :=
          List.getD_eq_getElem shape 0 (by omega)
        rw [hget, hshape, hinv (j + 1) hk1 (Nat.le_refl _)]
        have hdrop : shape.drop (j + 1) = shape[j + 1] :: shape.drop (j + 2) := by
          apply List.drop_eq_getElem_cons
        rw [hdrop, ComputeSize_cons]
        ring

lemma ComputeStrides_eq_canon (shape : List Nat) : ComputeStrides shape = canonStrides shape := by
  cases shape with
  | nil => rfl
  | cons d ds =>
    rw [ComputeStrides]
    apply stridesIter_eq_canon
    · exact Nat.sub_lt (by simp) (by decide)
    · exact List.length_replicate _ _
    · intro j hj hkj
      have hjlen : j < (d :: ds).length := by simpa using hj
      have hj1 : j + 1 = (d :: ds).length := by
        have : j ≤ (d :: ds).length - 1 := Nat.le_pred_of_lt hjlen
        omega
      rw [List.getElem_replicate, hj1, List.drop_length, ComputeSize_nil]

lemma ComputeStridesStatic_eq_canon (shape : List Nat) :
    ComputeStridesStatic shape = canonStrides shape := by
  cases shape with
  | nil => rfl
  | cons d ds =>
    rw [ComputeStridesStatic]
    rw [if_neg (by simp)]
    apply stridesIter_eq_canon
    · exact Nat.sub_lt (by simp) (by decide)
    · rw [List.length_set]; exact List.length_replicate _ _
    · intro j hj hkj
      have hjlen : j < (d :: ds).length := by
        simpa [List.length_set] using hj
      have hjeq : j = (d :: ds).length - 1 := by
        simp only [List.length_cons] at hjlen hkj ⊢
        omega
      subst hjeq
      rw [List.getElem_set_self hj]
      rw [show (d :: ds).length - 1 + 1 = (d :: ds).length by simp]
      rw [List.drop_length, ComputeSize_nil]

/-! ## Flatten/Unflatten round trip over canonical strides -/

lemma ComputeSize_pos_of_valid :
    ∀ {is ds : List Nat}, List.Forall₂ (fun i d => i < d) is ds → 0 < ComputeSize ds := by
  intro is ds h
  induction h with
  | nil => decide
  | @cons i d is ds hid htail ih =>
    rw [ComputeSize_cons]
    exact Nat.mul_pos (Nat.lt_of_le_of_lt (Nat.zero_le i) hid) ih

lemma FlattenIndex_lt_ComputeSize :
    ∀ {is ds : List Nat}, List.Forall₂ (fun i d => i < d) is ds →
      FlattenIndex (canonStrides ds) is < ComputeSize ds := by
  intro is ds h
  induction h with
  | nil => decide
  | @cons i d is ds hid htail ih =>
    show FlattenIndex (ComputeSize ds :: canonStrides ds) (i :: is) < ComputeSize (d :: ds)
    rw [FlattenIndex, ComputeSize_cons]
    calc i * ComputeSize ds + FlattenIndex (canonStrides ds) is
        < i * ComputeSize ds + ComputeSize ds := Nat.add_lt_add_left ih _
      _ = (i + 1) * ComputeSize ds := by ring
      _ ≤ d * ComputeSize ds := Nat.mul_le_mul_right _ hid

lemma unflatten_flatten_canon :
    ∀ {is ds : List Nat}, List.Forall₂ (fun i d => i < d) is ds →
      UnflattenIndex (canonStrides ds) (FlattenIndex (canonStrides ds) is) = is := by
  intro is ds h
  induction h with
  | nil => rfl
  | @cons i d is ds hid htail ih =>
    have hP : 0 < ComputeSize ds := ComputeSize_pos_of_valid htail
    have hlt : FlattenIndex (canonStrides ds) is < ComputeSize ds :=
      FlattenIndex_lt_ComputeSize htail
    show UnflattenIndex (ComputeSize ds :: canonStrides ds)
        (FlattenIndex (ComputeSize ds :: canonStrides ds) (i :: is)) = i :: is
    rw [FlattenIndex, UnflattenIndex]
    have hdiv :
        (i * ComputeSize ds + FlattenIndex (canonStrides ds) is) / ComputeSize ds = i := by
      rw [Nat.mul_comm i, Nat.mul_add_div hP, Nat.div_eq_of_lt hlt, Nat.add_zero]
    have hmod :
        (i * ComputeSize ds + FlattenIndex (canonStrides ds) is) % ComputeSize ds
          = FlattenIndex (canonStrides ds) is := by
      rw [Nat.mul_comm i, Nat.mul_add_mod]
      exact Nat.mod_eq_of_lt hlt
    rw [hdiv, hmod, ih]

/-! ## Claim theorems -/

/-- **C5** — For every contiguous metadata of rank ≥ 1 with canonical
row-major strides, and for every multi-index `idx` with `idx[i] < shape[i]`
in every dimension, `UnflattenIndex (strides) (FlattenIndex strides idx) =
idx`. -/
theorem unflatten_flatten_roundtrip (shape idx : List Nat)
    (hvalid : List.Forall₂ (fun i d => i < d) idx shape)
    (hrank : 1 ≤ shape.length) :
    UnflattenIndex (ComputeStrides shape) (FlattenIndex (ComputeStrides shape) idx) = idx := by
  rw [ComputeStrides_eq_canon]
  exact unflatten_flatten_canon hvalid

/-- Witness for C5: the round trip at shape `{2,3}`, index `{1,2}`. -/
theorem unflatten_flatten_roundtrip_witness :
    List.Forall₂ (fun i d => i < d) [1, 2] [2, 3] ∧ 1 ≤ ([2, 3] : List Nat).length
      ∧ UnflattenIndex (ComputeStrides [2, 3]) (FlattenIndex (ComputeStrides [2, 3]) [1, 2])
          = [1, 2] := by
  refine ⟨?_, by decide, ?_⟩
  · simp [List.forall₂_cons]
  · exact unflatten_flatten_roundtrip [2, 3] [1, 2] (by simp [List.forall₂_cons]) (by decide)

/-- **C9** — `ComputeStrides` returns the canonical row-major strides (last
stride `1`, `strides[i] = strides[i+1] * shape[i+1]`), `ComputeSize` the
product of all dimensions (`1` for the empty shape); for shape `{2,3,4}`
they yield `{12,4,1}` and `24`; and the fixed-rank (`constexpr`) and
variable-rank (runtime) forms agree on every logical shape. -/
theorem computeStrides_computeSize_spec :
    ComputeStrides [2, 3, 4] = [12, 4, 1] ∧ ComputeSize [2, 3, 4] = 24
      ∧ (∀ shape : List Nat, ComputeSize shape = shape.prod)
      ∧ ComputeSize [] = 1
      ∧ (∀ shape : List Nat, (ComputeStrides shape).length = shape.length)
      ∧ (∀ shape : List Nat, shape ≠ [] → (ComputeStrides shape).getD (shape.length - 1) 0 = 1)
      ∧ (∀ (shape : List Nat) (i : Nat), i + 1 < shape.length →
          (ComputeStrides shape).getD i 0
            = (ComputeStrides shape).getD (i + 1) 0 * shape.getD (i + 1) 0)
      ∧ (∀ shape : List Nat, ComputeStridesStatic shape = ComputeStrides shape)
      ∧ (∀ shape : List Nat, ComputeSizeStatic shape = ComputeSize shape) := by
  refine ⟨by decide, by decide, ComputeSize_eq_prod, rfl, ?_, ?_, ?_, ?_, ?_⟩
  · intro shape
    rw [ComputeStrides_eq_canon, canonStrides_length]
  · intro shape hne
    have hpos : 0 < shape.length := List.length_pos.mpr hne
    have hlt : shape.length - 1 < (canonStrides shape).length := by
      rw [canonStrides_length]; omega
    rw [ComputeStrides_eq_canon, List.getD_eq_getElem _ 0 hlt, canonStrides_getElem]
    rw [show shape.length - 1 + 1 = shape.length by omega]
    rw [List.drop_length, ComputeSize_nil]
  · intro shape i hi
    have hlen : (canonStrides shape).length = shape.length := canonStrides_length shape
    have hi0 : i < (canonStrides shape).length := by omega
    have hi1 : i + 1 < (canonStrides shape).length := by omega
    have hish : i + 1 < shape.length := hi
    rw [ComputeStrides_eq_canon, List.getD_eq_getElem _ 0 hi0, List.getD_eq_getElem _ 0 hi1,
      List.getD_eq_getElem _ 0 hish, canonStrides_getElem _ _ hi0, canonStrides_getElem _ _ hi1]
    rw [List.drop_eq_getElem_cons hish, ComputeSize_cons]
    ring
  · intro shape
    rw [ComputeStridesStatic_eq_canon, ComputeStrides_eq_canon]
  · intro shape
    cases shape with
    | nil => rfl
    | cons d ds => rfl

/-- Witness for C9: the hypothesis-bearing conjuncts applied at shape
`{2,3,4}` (non-empty, and `i = 1` for the stride recurrence). -/
theorem computeStrides_computeSize_spec_witness :
    (([2, 3, 4] : List Nat) ≠ [] ∧ (ComputeStrides [2, 3, 4]).getD 2 0 = 1)
      ∧ (1 + 1 < ([2, 3, 4] : List Nat).length
        ∧ (ComputeStrides [2, 3, 4]).getD 1 0
            = (ComputeStrides [2, 3, 4]).getD 2 0 * ([2, 3, 4] : List Nat).getD 2 0) := by
  constructor
  · exact ⟨by decide, computeStrides_computeSize_spec.2.2.2.2.2.1 [2, 3, 4] (by decide)⟩
  · exact ⟨by decide, computeStrides_computeSize_spec.2.2.2.2.2.2.1 [2, 3, 4] 1 (by decide)⟩

/-- **C1** (failing-input evaluation) — `NextSlice` on metadata over shape
`{4,5}` (strides `{5,1}`, offset 0) with bounds `{1,1}`..`{3,4}` returns
shape `{2,3}` but with *recomputed* canonical strides `{3,1}` and the
*unchanged* offset `0`, not the inherited strides `{5,1}` and offset `6`
the claim requires. -/
theorem nextSlice_failing_input_eval :
    NextSlice (TensorMetadata.fromShape [4, 5] 0) [1, 1] [3, 4]
        = some (TensorMetadata.fromShape [2, 3] 0)
      ∧ (TensorMetadata.fromShape [2, 3] 0).strides = [3, 1]
      ∧ (TensorMetadata.fromShape [4, 5] 0).strides = [5, 1]
      ∧ (TensorMetadata.fromShape [2, 3] 0).offset = 0
      ∧ ¬ (TensorMetadata.fromShape [2, 3] 0).strides
          = (TensorMetadata.fromShape [4, 5] 0).strides
      ∧ ¬ (TensorMetadata.fromShape [2, 3] 0).offset
          = (TensorMetadata.fromShape [4, 5] 0).offset + (1 * 5 + 1 * 1) := by
  decide

/-- **C2** (failing-input evaluation) — permuting shape `{2,3}` by `{1,0}`
yields a view with strides `{1,3}`, which are not the canonical strides of
its shape `{3,2}`, yet the contiguity flag is `true`: both constructors set
it unconditionally, so the flag is not recomputed as the claim states. -/
theorem contiguity_flag_failing_input_eval :
    NextPermute (TensorMetadata.fromShape [2, 3] 0) [1, 0]
        = some (TensorMetadata.fromShapeStrides [3, 2] [1, 3] 0)
      ∧ (TensorMetadata.fromShapeStrides [3, 2] [1, 3] 0).isContiguous = true
      ∧ ¬ (TensorMetadata.fromShapeStrides [3, 2] [1, 3] 0).strides
          = ComputeStrides (TensorMetadata.fromShapeStrides [3, 2] [1, 3] 0).shape := by
  decide

/-- **C4** (failing-input evaluation) — `NextPermute` with the duplicate
argument `{0,0}` on a rank-2 metadata is not a bijection over `0..1`, yet
the call succeeds, returning shape `{2,2}` and strides `{3,3}`; the claimed
validation does not exist. -/
theorem nextPermute_duplicate_eval :
    (NextPermute (TensorMetadata.fromShape [2, 3] 0) [0, 0]).isSome = true
      ∧ ¬ List.Perm [0, 0] (List.range 2)
      ∧ NextPermute (TensorMetadata.fromShape [2, 3] 0) [0, 0]
          = some (TensorMetadata.fromShapeStrides [2, 2] [3, 3] 0) := by
  decide

/-- **C7** (failing-input evaluation) — `NextSqueeze` of shape `{1,3,1,4}`
at axes `{0,2}`: the misnested loop appends one full pass per axis, giving
shape `{3,1,4,1,3,4}` with recomputed canonical strides, instead of the
claimed shape `{3,4}` with carried-over strides `{4,1}`. -/
theorem nextSqueeze_failing_input_eval :
    NextSqueeze (TensorMetadata.fromShape [1, 3, 1, 4] 0) [0, 2]
        = some (TensorMetadata.fromShape [3, 1, 4, 1, 3, 4] 0)
      ∧ ¬ (TensorMetadata.fromShape [3, 1, 4, 1, 3, 4] 0).shape = [3, 4]
      ∧ ¬ (TensorMetadata.fromShape [3, 1, 4, 1, 3, 4] 0).strides = [4, 1] := by
  decide

/-- **C3** (counterexample) — a metadata whose contiguity flag is `false`
(set via `SetContiguous`) and a same-size reshape: `NextReshape` succeeds
instead of failing, because the source never consults the flag. -/
theorem nextReshape_noncontiguous_counterexample :
    ((TensorMetadata.fromShape [2, 3] 0).SetContiguous false).isContiguous = false
      ∧ [3, 2].foldl (fun a d => a * d) 1
          = ((TensorMetadata.fromShape [2, 3] 0).SetContiguous false).totalSize
      ∧ NextReshape ((TensorMetadata.fromShape [2, 3] 0).SetContiguous false) [3, 2]
          = some (TensorMetadata.fromShape [3, 2] 0) := by
  decide

/-- **C3** (amended) — `NextReshape` performs no contiguity check: for every
metadata with contiguity flag `false` and every `newShape` whose product
equals `totalSize`, it succeeds, returning canonical-stride metadata with
the original offset. -/
theorem nextReshape_ignores_contiguity (m : TensorMetadata) (newShape : List Nat)
    (hflag : m.isContiguous = false)
    (hsize : newShape.foldl (fun a d => a * d) 1 = m.totalSize) :
    NextReshape m newShape = some (TensorMetadata.fromShape newShape m.offset) := by
  rw [NextReshape, if_neg (by simp [hsize])]

/-- Witness for the amended C3, at the concrete non-contiguous metadata of
the counterexample. -/
theorem nextReshape_ignores_contiguity_witness :
    ((TensorMetadata.fromShape [2, 3] 0).SetContiguous false).isContiguous = false
      ∧ NextReshape ((TensorMetadata.fromShape [2, 3] 0).SetContiguous false) [3, 2]
          = some (TensorMetadata.fromShape [3, 2]
              ((TensorMetadata.fromShape [2, 3] 0).SetContiguous false).offset) :=
  ⟨by decide,
    nextReshape_ignores_contiguity ((TensorMetadata.fromShape [2, 3] 0).SetContiguous false)
      [3, 2] (by decide) (by decide)⟩

/-- **C8** — `NextReshape` fails exactly when the product of the requested
shape differs from `totalSize`; on success the offset is unchanged and the
strides are the canonical strides of the new shape; and reshaping total size
24 to `{5,5}` fails. -/
theorem nextReshape_size_spec (m : TensorMetadata) (newShape : List Nat) :
    ((NextReshape m newShape).isSome
        ↔ newShape.foldl (fun a d => a * d) 1 = m.totalSize)
      ∧ (∀ md : TensorMetadata, NextReshape m newShape = some md →
          md.offset = m.offset ∧ md.strides = ComputeStrides newShape ∧ md.shape = newShape)
      ∧ NextReshape (TensorMetadata.fromShape [2, 3, 4] 0) [5, 5] = none := by
  refine ⟨?_, ?_, by decide⟩
  · by_cases h : m.totalSize = newShape.foldl (fun a d => a * d) 1
    · rw [NextReshape, if_neg (by simp [h])]
      simpa using h.symm
    · rw [NextReshape, if_pos (by simpa using h)]
      simpa using fun hh => h hh.symm
  · intro md hmd
    rw [NextReshape] at hmd
    split at hmd
    · exact absurd hmd (by simp)
    · cases hmd
      exact ⟨rfl, rfl, rfl⟩

/-- Witness for C8: the success case applied at a concrete reshape
`{2,3} → {3,2}`. -/
theorem nextReshape_size_spec_witness :
    NextReshape (TensorMetadata.fromShape [2, 3] 0) [3, 2]
        = some (TensorMetadata.fromShape [3, 2] 0)
      ∧ (TensorMetadata.fromShape [3, 2] 0).offset = (TensorMetadata.fromShape [2, 3] 0).offset
      ∧ (TensorMetadata.fromShape [3, 2] 0).strides = ComputeStrides [3, 2] := by
  have h := (nextReshape_size_spec (TensorMetadata.fromShape [2, 3] 0) [3, 2]).2.1
      (TensorMetadata.fromShape [3, 2] 0) (by decide)
  exact ⟨by decide, h.1, h.2.1⟩

/-! ## Permutation round trip (C6) -/

lemma permuteDims_eq_map (shape strides : List Nat) :
    ∀ perm : List Nat, (∀ j ∈ perm, j < shape.length ∧ j < strides.length) →
      permuteDims shape strides perm
        = some (perm.map (fun j => shape.getD j 0), perm.map (fun j => strides.getD j 0)) := by
  intro perm
  induction perm with
  | nil => intro _; rfl
  | cons p ps ih =>
    intro hmem
    have hp := hmem p (List.mem_cons_self p ps)
    have hps : ∀ j ∈ ps, j < shape.length ∧ j < strides.length :=
      fun j hj => hmem j (List.mem_cons_of_mem p hj)
    have h1 : shape.get? p = some (shape.getD p 0) := by
      rw [List.get?_eq_getElem?, List.getElem?_eq_getElem hp.1, List.getD_eq_getElem _ _ hp.1]
    have h2 : strides.get? p = some (strides.getD p 0) := by
      rw [List.get?_eq_getElem?, List.getElem?_eq_getElem hp.2, List.getD_eq_getElem _ _ hp.2]
    rw [permuteDims, h1, h2, ih hps]
    rfl

lemma map_getD_range_self (l : List Nat) :
    (List.range l.length).map (fun i => l.getD i 0) = l := by
  apply List.ext_getElem
  · simp
  · intro n h1 h2
    simp only [List.getElem_map, List.getElem_range]
    exact List.getD_eq_getElem _ _ h2

lemma invPerm_comp_getD (l p : List Nat) (hlen : p.length = l.length)
    (hperm : List.Perm p (List.range l.length)) :
    (invPerm p).map (fun j => (p.map (fun i => l.getD i 0)).getD j 0) = l := by
  rw [invPerm, List.map_map]
  apply List.ext_getElem
  · simp [hlen]
  · intro n h1 h2
    simp only [List.getElem_map, List.getElem_range, Function.comp]
    have hn : n < l.length := h2
    have hmm : n ∈ p := hperm.mem_iff.mpr (List.mem_range.mpr hn)
    have hidx : p.indexOf n < p.length := List.indexOf_lt_length.mpr hmm
    have hidx2 : p.indexOf n < (p.map (fun i => l.getD i 0)).length := by
      simpa using hidx
    rw [List.getD_eq_getElem _ _ hidx2, List.getElem_map, List.getElem_indexOf hidx]
    exact List.getD_eq_getElem _ _ h2

lemma isEmpty_false_of_ne_nil {l : List Nat} (h : l ≠ []) : l.isEmpty = false := by
  cases l with
  | nil => exact absurd rfl h
  | cons a as => rfl

/-- **C6** (counterexample) — on a rank-0 metadata the only valid
permutation is the empty one, and `NextPermute` with an empty permutation
takes the transpose path, whose `NextReverse` call underflows and indexes
out of bounds; the double-permute round trip therefore crashes (modelled
`none`) instead of returning metadata with the original shape and
strides. -/
theorem permute_inverse_rank0_counterexample :
    (TensorMetadata.fromShape [] 7).shape = []
      ∧ invPerm [] = []
      ∧ (NextPermute (TensorMetadata.fromShape [] 7) []).bind
          (fun m2 => NextPermute m2 (invPerm [])) = none := by
  decide

/-- **C6** (amended) — for every metadata of rank ≥ 1 (with
`len(strides) = len(shape)`, the class invariant) and every valid
permutation `p` of its rank, `Permute(Permute(m, p), inverse(p))` succeeds
and returns a metadata whose shape and strides equal those of `m`. -/
theorem permute_inverse_roundtrip (m : TensorMetadata) (p : List Nat)
    (hrank : 1 ≤ m.shape.length)
    (hstr : m.strides.length = m.shape.length)
    (hperm : List.Perm p (List.range m.shape.length)) :
    ∃ md : TensorMetadata,
      (NextPermute m p).bind (fun m2 => NextPermute m2 (invPerm p)) = some md
        ∧ md.shape = m.shape ∧ md.strides = m.strides := by
  have hplen : p.length = m.shape.length := by simpa using hperm.length_eq
  have hpne : p ≠ [] := by
    intro h
    rw [h] at hplen
    simp at hplen
    omega
  have hmem : ∀ j ∈ p, j < m.shape.length ∧ j < m.strides.length := by
    intro j hj
    have : j < m.shape.length := List.mem_range.mp (hperm.mem_iff.mp hj)
    exact ⟨this, by omega⟩
  have e1 : NextPermute m p
      = some (TensorMetadata.fromShapeStrides
          (p.map (fun i => m.shape.getD i 0)) (p.map (fun i => m.strides.getD i 0)) m.offset) := by
    rw [NextPermute, isEmpty_false_of_ne_nil hpne]
    rw [if_neg (by decide)]
    rw [if_neg (by simp [hplen])]
    rw [permuteDims_eq_map m.shape m.strides p hmem]
  set sh2 : List Nat := p.map (fun i => m.shape.getD i 0) with hsh2
  set st2 : List Nat := p.map (fun i => m.strides.getD i 0) with hst2
  set q : List Nat := invPerm p with hq
  have hqlen : q.length = p.length := by simp [hq, invPerm]
  have hqne : q ≠ [] := by
    intro h
    have := congrArg List.length h
    rw [hqlen] at this
    simp at this
    exact hpne this
  have hmem2 : ∀ j ∈ q, j < sh2.length ∧ j < st2.length := by
    intro j hj
    rw [hq, invPerm] at hj
    obtain ⟨i, hi, rfl⟩ := List.mem_map.mp hj
    have hir : i < p.length := by
      have := List.mem_range.mp hi
      omega
    have himem : i ∈ p := by
      apply hperm.mem_iff.mpr
      apply List.mem_range.mpr
      omega
    have : p.indexOf i < p.length := List.indexOf_lt_length.mpr himem
    constructor
    · simpa [hsh2] using this
    · simpa [hst2] using this
  have e2 : NextPermute (TensorMetadata.fromShapeStrides sh2 st2 m.offset) q
      = some (TensorMetadata.fromShapeStrides
          (q.map (fun j => sh2.getD j 0)) (q.map (fun j => st2.getD j 0)) m.offset) := by
    rw [NextPermute, isEmpty_false_of_ne_nil hqne]
    rw [if_neg (by decide)]
    rw [if_neg (by simp [TensorMetadata.fromShapeStrides, hqlen, hsh2])]
    show (match permuteDims sh2 st2 q with
      | some (newShape, newStrides) =>
        some (TensorMetadata.fromShapeStrides newShape newStrides m.offset)
      | none => none)
      = some (TensorMetadata.fromShapeStrides
          (q.map (fun j => sh2.getD j 0)) (q.map (fun j => st2.getD j 0)) m.offset)
    rw [permuteDims_eq_map sh2 st2 q hmem2]
  refine ⟨TensorMetadata.fromShapeStrides
      (q.map (fun j => sh2.getD j 0)) (q.map (fun j => st2.getD j 0)) m.offset, ?_, ?_, ?_⟩
  · rw [e1, Option.some_bind, e2]
  · show q.map (fun j => sh2.getD j 0) = m.shape
    rw [hq, hsh2]
    exact invPerm_comp_getD m.shape p hplen hperm
  · show q.map (fun j => st2.getD j 0) = m.strides
    rw [hq, hst2]
    apply invPerm_comp_getD m.strides p (by omega)
    rw [← hstr] at hperm
    exact hperm

/-- Witness for the amended C6: the round trip on shape `{2,3}` with the
permutation `{1,0}`. -/
theorem permute_inverse_roundtrip_witness :
    1 ≤ (TensorMetadata.fromShape [2, 3] 0).shape.length
      ∧ (TensorMetadata.fromShape [2, 3] 0).strides.length
          = (TensorMetadata.fromShape [2, 3] 0).shape.length
      ∧ List.Perm [1, 0] (List.range (TensorMetadata.fromShape [2, 3] 0).shape.length)
      ∧ ∃ md : TensorMetadata,
          (NextPermute (TensorMetadata.fromShape [2, 3] 0) [1, 0]).bind
              (fun m2 => NextPermute m2 (invPerm [1, 0])) = some md
            ∧ md.shape = (TensorMetadata.fromShape [2, 3] 0).shape
            ∧ md.strides = (TensorMetadata.fromShape [2, 3] 0).strides := by
  refine ⟨by decide, by decide, by decide, ?_⟩
  exact permute_inverse_roundtrip (TensorMetadata.fromShape [2, 3] 0) [1, 0]
    (by decide) (by decide) (by decide)

/-! ## `NextReverse` bounds (C10) -/

lemma nextReverse_nil : NextReverse [] = none := by decide

lemma reverseLoop_isSome :
    ∀ (fuel : Nat) (vec : List Nat) (left right : Nat),
      right < vec.length → right - left ≤ fuel →
      (reverseLoop fuel vec left right).isSome = true := by
  intro fuel
  induction fuel with
  | zero =>
    intro vec left right hr hf
    rw [reverseLoop, if_neg (by omega)]
    rfl
  | succ fuel ih =>
    intro vec left right hr hf
    rw [reverseLoop]
    by_cases hlr : left < right
    · rw [if_pos hlr]
      have hl : left < vec.length := by omega
      have hgl : vec.get? left = some (vec.getD left 0) := by
        rw [List.get?_eq_getElem?, List.getElem?_eq_getElem hl, List.getD_eq_getElem _ _ hl]
      have hgr : vec.get? right = some (vec.getD right 0) := by
        rw [List.get?_eq_getElem?, List.getElem?_eq_getElem hr, List.getD_eq_getElem _ _ hr]
      rw [hgl, hgr]
      show (reverseLoop fuel ((vec.set left (vec.getD right 0)).set right (vec.getD left 0))
          (left + 1) (right - 1)).isSome = true
      apply ih
      · simp only [List.length_set]
        omega
      · omega
    · rw [if_neg hlr]
      rfl

lemma nextReverse_isSome (vec : List Nat) (h : vec ≠ []) : (NextReverse vec).isSome = true := by
  have hlen : 0 < vec.length := List.length_pos.mpr h
  have hM : 1 ≤ SIZE_T_MOD := by rw [SIZE_T_MOD]; decide
  have hsum : vec.length + (SIZE_T_MOD - 1) = (vec.length - 1) + SIZE_T_MOD := by omega
  have hmod : (vec.length + (SIZE_T_MOD - 1)) % SIZE_T_MOD = (vec.length - 1) % SIZE_T_MOD := by
    rw [hsum, Nat.add_mod_right]
  have hlt : (vec.length + (SIZE_T_MOD - 1)) % SIZE_T_MOD < vec.length := by
    rw [hmod]
    have := Nat.mod_le (vec.length - 1) SIZE_T_MOD
    omega
  rw [NextReverse]
  exact reverseLoop_isSome _ vec 0 _ hlt (by omega)

/-- **C10** — calling `NextPermute` with an empty permutation (hence also
`NextTranspose`) on a rank-0 metadata is unsafe: `NextReverse` computes
`right = vec.size() - 1` with unsigned underflow on the empty vector and the
loop body indexes out of bounds (modelled as `none`); for every vector of
length ≥ 1 — hence every metadata of rank ≥ 1 — the reversal stays within
bounds and the call completes. -/
theorem nextReverse_rank0_unsafe :
    NextReverse [] = none
      ∧ (∀ m : TensorMetadata, m.shape = [] → NextPermute m [] = none)
      ∧ (∀ m : TensorMetadata, m.shape = [] → NextTranspose m = none)
      ∧ (∀ v : List Nat, v ≠ [] → (NextReverse v).isSome = true)
      ∧ (∀ m : TensorMetadata, 1 ≤ m.shape.length → 1 ≤ m.strides.length →
          (NextPermute m []).isSome = true) := by
  have hperm0 : ∀ m : TensorMetadata, m.shape = [] → NextPermute m [] = none := by
    intro m hm
    rw [NextPermute, if_pos (show ([] : List Nat).isEmpty = true from rfl),
      hm, nextReverse_nil]
  refine ⟨nextReverse_nil, hperm0, ?_, fun v hv => nextReverse_isSome v hv, ?_⟩
  · intro m hm
    rw [NextTranspose]
    exact hperm0 m hm
  · intro m h1 h2
    have hsh : m.shape ≠ [] := by
      intro hh
      rw [hh] at h1
      simp at h1
    have hst : m.strides ≠ [] := by
      intro hh
      rw [hh] at h2
      simp at h2
    obtain ⟨a, ha⟩ := Option.isSome_iff_exists.mp (nextReverse_isSome m.shape hsh)
    obtain ⟨b, hb⟩ := Option.isSome_iff_exists.mp (nextReverse_isSome m.strides hst)
    rw [NextPermute, if_pos (show ([] : List Nat).isEmpty = true from rfl), ha, hb]
    rfl

/-- Witness for C10: the rank-0 crash at a concrete scalar metadata, a
concrete in-bounds reversal, and a concrete rank-2 transpose. -/
theorem nextReverse_rank0_unsafe_witness :
    ((TensorMetadata.fromShape [] 0).shape = []
        ∧ NextPermute (TensorMetadata.fromShape [] 0) [] = none)
      ∧ (([1, 2, 3] : List Nat) ≠ [] ∧ (NextReverse [1, 2, 3]).isSome = true)
      ∧ (1 ≤ (TensorMetadata.fromShape [2, 3] 0).shape.length
          ∧ (NextPermute (TensorMetadata.fromShape [2, 3] 0) []).isSome = true) := by
  refine ⟨⟨by decide, ?_⟩, ⟨by decide, ?_⟩, ⟨by decide, ?_⟩⟩
  · exact nextReverse_rank0_unsafe.2.1 (TensorMetadata.fromShape [] 0) (by decide)
  · exact nextReverse_rank0_unsafe.2.2.2.1 [1, 2, 3] (by decide)
  · exact nextReverse_rank0_unsafe.2.2.2.2 (TensorMetadata.fromShape [2, 3] 0)
      (by decide) (by decide)
